import Mathlib

/-!
Verification of the Pixshop editing-session core: undo/redo history,
zoom/pan/pinch view transform, mask binarization, crop rendering geometry,
and expand (outpainting) rectangle geometry.

Numbers are embedded as exact rationals.  JavaScript arithmetic can produce
`Infinity` and `NaN` (notably the pinch gesture divides by the initial touch
distance without a zero guard), so the view-transform state machine works over
a value type `JSVal` that models the IEEE special values `NaN`, `Infinity`
and `-Infinity` explicitly, with the propagation rules of JavaScript's
arithmetic operators and of `Math.max` / `Math.min`.
-/

/-- Model of a JavaScript number: `NaN`, `Infinity`, `-Infinity`, or a finite
value (embedded as an exact rational; rounding of IEEE doubles is not
modelled). -/
inductive JSVal where
  | nan : JSVal
  | posInf : JSVal
  | negInf : JSVal
  | fin : ℚ → JSVal
deriving DecidableEq

namespace JSVal

/-- JavaScript addition on `JSVal`. -/
def add : JSVal → JSVal → JSVal
  | nan, _ => nan
  | _, nan => nan
  | posInf, negInf => nan
  | negInf, posInf => nan
  | posInf, _ => posInf
  | _, posInf => posInf
  | negInf, _ => negInf
  | _, negInf => negInf
  | fin a, fin b => fin (a + b)

/-- JavaScript negation on `JSVal`. -/
def neg : JSVal → JSVal
  | nan => nan
  | posInf => negInf
  | negInf => posInf
  | fin a => fin (-a)

/-- JavaScript subtraction on `JSVal`. -/
def sub (a b : JSVal) : JSVal := add a (neg b)

/-- JavaScript multiplication on `JSVal` (`0 * Infinity = NaN`). -/
def mul : JSVal → JSVal → JSVal
  | nan, _ => nan
  | _, nan => nan
  | posInf, posInf => posInf
  | posInf, negInf => negInf
  | negInf, posInf => negInf
  | negInf, negInf => posInf
  | posInf, fin b => if b = 0 then nan else if 0 < b then posInf else negInf
  | fin a, posInf => if a = 0 then nan else if 0 < a then posInf else negInf
  | negInf, fin b => if b = 0 then nan else if 0 < b then negInf else posInf
  | fin a, negInf => if a = 0 then nan else if 0 < a then negInf else posInf
  | fin a, fin b => fin (a * b)

/-- JavaScript division on `JSVal`: a nonzero finite value divided by zero
gives a signed infinity, `0 / 0` gives `NaN`.  (JavaScript's signed zero is
not modelled; zero behaves as `+0`.) -/
def div : JSVal → JSVal → JSVal
  | nan, _ => nan
  | _, nan => nan
  | posInf, posInf => nan
  | posInf, negInf => nan
  | negInf, posInf => nan
  | negInf, negInf => nan
  | fin _, posInf => fin 0
  | fin _, negInf => fin 0
  | posInf, fin b => if 0 ≤ b then posInf else negInf
  | negInf, fin b => if 0 ≤ b then negInf else posInf
  | fin a, fin b =>
      if b = 0 then (if a = 0 then nan else if 0 < a then posInf else negInf)
      else fin (a / b)

/-- Model of JavaScript `Math.max` on two arguments (`NaN` absorbs). -/
def max2 : JSVal → JSVal → JSVal
  | nan, _ => nan
  | _, nan => nan
  | posInf, _ => posInf
  | _, posInf => posInf
  | negInf, b => b
  | a, negInf => a
  | fin a, fin b => fin (max a b)

/-- Model of JavaScript `Math.min` on two arguments (`NaN` absorbs). -/
def min2 : JSVal → JSVal → JSVal
  | nan, _ => nan
  | _, nan => nan
  | negInf, _ => negInf
  | _, negInf => negInf
  | posInf, b => b
  | a, posInf => a
  | fin a, fin b => fin (min a b)

/-- JavaScript `<=` comparison: any comparison with `NaN` is false. -/
def le : JSVal → JSVal → Bool
  | nan, _ => false
  | _, nan => false
  | negInf, _ => true
  | _, posInf => true
  | posInf, _ => false
  | _, negInf => false
  | fin a, fin b => decide (a ≤ b)

end JSVal

/-- View-transform state of the editing session: zoom `scale` and pan
`position` (`posX`, `posY`), plus the refs `initialScale` and
`initialTouchDistance` captured by the two-finger-pinch gesture handlers
(`initialScale.current`, `initialTouchDistance.current` in the source). -/
structure ViewState where
  scale : JSVal
  posX : JSVal
  posY : JSVal
  initialScale : JSVal
  initialTouchDistance : ℚ
deriving DecidableEq

/-- Initial view state: `scale = 1`, `position = {0,0}`,
`initialScale.current = 1`, `initialTouchDistance.current = 0`. -/
def initialViewState : ViewState :=
  { scale := .fin 1, posX := .fin 0, posY := .fin 0
    initialScale := .fin 1, initialTouchDistance := 0 }

/-- Embedding of `handleZoom(delta, centerX, centerY)`:
`newScale = Math.min(Math.max(0.2, scale + delta), 8)` and the offset is
recomputed so that the viewport point `(centerX, centerY)` is anchored. -/
def handleZoom (s : ViewState) (delta centerX centerY : ℚ) : ViewState :=
  let newScale := JSVal.min2 (JSVal.max2 (.fin (1/5)) (JSVal.add s.scale (.fin delta))) (.fin 8)
  let ratio := JSVal.div newScale s.scale
  let newX := JSVal.sub (.fin centerX) (JSVal.mul (JSVal.sub (.fin centerX) s.posX) ratio)
  let newY := JSVal.sub (.fin centerY) (JSVal.mul (JSVal.sub (.fin centerY) s.posY) ratio)
  { s with scale := newScale, posX := newX, posY := newY }

/-- Embedding of the two-touch branch of `handleTouchMove`: the scale ratio is
`currentDistance / initialTouchDistance.current` (no guard against a zero
initial distance), `newScale = Math.min(Math.max(0.2, initialScale.current *
scaleRatio), 8)`, and the offset is recomputed with the same anchoring formula
as `handleZoom` at the touch midpoint. -/
def pinchMove (s : ViewState) (currentDistance midPointX midPointY : ℚ) : ViewState :=
  let scaleRatio := JSVal.div (.fin currentDistance) (.fin s.initialTouchDistance)
  let newScale := JSVal.min2 (JSVal.max2 (.fin (1/5)) (JSVal.mul s.initialScale scaleRatio)) (.fin 8)
  let ratio := JSVal.div newScale s.scale
  let newX := JSVal.sub (.fin midPointX) (JSVal.mul (JSVal.sub (.fin midPointX) s.posX) ratio)
  let newY := JSVal.sub (.fin midPointY) (JSVal.mul (JSVal.sub (.fin midPointY) s.posY) ratio)
  { s with scale := newScale, posX := newX, posY := newY }

/-- View-transform events.  A two-finger pinch is one composite event: the
two-touch `touchstart` records the initial distance and the scale at gesture
start, then each two-touch `touchmove` carries the current distance and the
touch midpoint, and `touchend` resets the stored distance to `0`.  A pan drag
sets the position absolutely from the drag anchor (`handleMouseMove` /
one-touch `handleTouchMove`), and `reset` is `resetZoomAndPan`. -/
inductive ViewEv where
  | zoom (delta centerX centerY : ℚ)
  | pan (x y : ℚ)
  | reset
  | pinch (initialDistance : ℚ) (moves : List (ℚ × ℚ × ℚ))
deriving DecidableEq

/-- One view-transform event step. -/
def viewStep (s : ViewState) : ViewEv → ViewState
  | .zoom delta cx cy => handleZoom s delta cx cy
  | .pan x y => { s with posX := .fin x, posY := .fin y }
  | .reset => { s with scale := .fin 1, posX := .fin 0, posY := .fin 0 }
  | .pinch d moves =>
      let s1 := { s with initialTouchDistance := d, initialScale := s.scale }
      let s2 := moves.foldl (fun t m => pinchMove t m.1 m.2.1 m.2.2) s1
      { s2 with initialTouchDistance := 0 }

/-- Run a sequence of view-transform events. -/
def viewRun (s : ViewState) (evs : List ViewEv) : ViewState :=
  evs.foldl viewStep s

/-- Scale is a finite value in the documented range `[0.2, 8]`. -/
def scaleInRange : JSVal → Bool
  | .fin q => decide (1/5 ≤ q) && decide (q ≤ 8)
  | _ => false

/-- An event is non-degenerate: a pinch whose recorded initial touch distance
is zero is the one input on which the unguarded division misbehaves. -/
def safeViewEv : ViewEv → Bool
  | .pinch d _ => decide (d ≠ 0)
  | _ => true

/-- Good view state: both the live scale and the pinch-captured scale are
finite and within the clamp range. -/
def GoodView (s : ViewState) : Prop :=
  scaleInRange s.scale = true ∧ scaleInRange s.initialScale = true

/-- Source guard `canUndo = historyIndex > 0`. -/
def canUndo (historyIndex : ℤ) : Bool := decide (0 < historyIndex)

/-- Source guard `canRedo = historyIndex < history.length - 1`. -/
def canRedo {α : Type} (history : List α) (historyIndex : ℤ) : Bool :=
  decide (historyIndex < (history.length : ℤ) - 1)

/-- Embedding of `addImageToHistory` (identical in both App variants):
`newHistory = history.slice(0, historyIndex + 1)` followed by
`newHistory.push(newImageFile)`, and the index is set to the new last
position.  (`slice` with a nonnegative end bound is `List.take`; the index is
`-1` only before any image is loaded, where `slice(0, 0)` is the empty
prefix, matching `Int.toNat`.)  The accompanying side effects (clearing the
crop selection and the mask, resetting the view transform) are modelled on
`EditorState` below. -/
def addImageToHistory {α : Type} (history : List α) (historyIndex : ℤ)
    (newImageFile : α) : List α × ℤ :=
  let newHistory := history.take (historyIndex + 1).toNat ++ [newImageFile]
  (newHistory, (newHistory.length : ℤ) - 1)

/-- Editing-session state shared by the two App variants: the image-version
history with its current index, and the view transform (zoom scale and pan
position).  Image versions are an arbitrary type `α`. -/
structure EditorState (α : Type) where
  history : List α
  historyIndex : ℤ
  scale : JSVal
  posX : JSVal
  posY : JSVal
deriving DecidableEq

/-- Embedding of `handleUndo` from the first App variant (part_000):
`if (canUndo) setHistoryIndex(historyIndex - 1); resetZoomAndPan();` —
note that `resetZoomAndPan()` runs even when `canUndo` is false. -/
def handleUndoV0 {α : Type} (s : EditorState α) : EditorState α :=
  let s1 := if canUndo s.historyIndex then { s with historyIndex := s.historyIndex - 1 } else s
  { s1 with scale := JSVal.fin 1, posX := JSVal.fin 0, posY := JSVal.fin 0 }

/-- Embedding of `handleRedo` from the first App variant (part_000):
`if (canRedo) setHistoryIndex(historyIndex + 1); resetZoomAndPan();`. -/
def handleRedoV0 {α : Type} (s : EditorState α) : EditorState α :=
  let s1 := if canRedo s.history s.historyIndex then { s with historyIndex := s.historyIndex + 1 } else s
  { s1 with scale := JSVal.fin 1, posX := JSVal.fin 0, posY := JSVal.fin 0 }

/-- Embedding of `handleUndo` from the second App variant (part_001): the
index decrement and `resetZoomAndPan()` both happen only under `canUndo`. -/
def handleUndoV1 {α : Type} (s : EditorState α) : EditorState α :=
  if canUndo s.historyIndex then
    { s with historyIndex := s.historyIndex - 1,
             scale := JSVal.fin 1, posX := JSVal.fin 0, posY := JSVal.fin 0 }
  else s

/-- Embedding of `handleRedo` from the second App variant (part_001). -/
def handleRedoV1 {α : Type} (s : EditorState α) : EditorState α :=
  if canRedo s.history s.historyIndex then
    { s with historyIndex := s.historyIndex + 1,
             scale := JSVal.fin 1, posX := JSVal.fin 0, posY := JSVal.fin 0 }
  else s

/-- Embedding of `handleReset` (identical in both App variants):
`if (history.length > 0) { setHistoryIndex(0); setError(null);
resetZoomAndPan(); }` (the error message is not part of this state model). -/
def handleReset {α : Type} (s : EditorState α) : EditorState α :=
  if 0 < s.history.length then
    { s with historyIndex := 0,
             scale := JSVal.fin 1, posX := JSVal.fin 0, posY := JSVal.fin 0 }
  else s

/-- The view transform of an editor state is the reset transform
`{scale: 1, position: {0,0}}`. -/
def viewIsReset {α : Type} (s : EditorState α) : Prop :=
  s.scale = JSVal.fin 1 ∧ s.posX = JSVal.fin 0 ∧ s.posY = JSVal.fin 0


/-- Embedding of `getTransformedCoordinates`: maps a pointer event's client
coordinates to image space, `x = (clientX - rect.left - position.x) / scale`
and likewise for `y`. -/
def getTransformedCoordinates (clientX clientY rectLeft rectTop posX posY scale : ℚ) : ℚ × ℚ :=
  ((clientX - rectLeft - posX) / scale, (clientY - rectTop - posY) / scale)
/-- Embedding of the per-pixel thresholding loop of `handleErase`: the RGBA
byte array is walked four bytes at a time; a pixel with any alpha
(`data[i+3] > 0`) becomes opaque white `(255,255,255,255)`, any other pixel
becomes opaque black `(0,0,0,255)`.  (A trailing fragment shorter than four
bytes cannot occur in a well-formed RGBA array and is left unchanged.) -/
def binarizeData : List ℕ → List ℕ
  | r :: g :: b :: a :: rest =>
      if a > 0 then 255 :: 255 :: 255 :: 255 :: binarizeData rest
      else 0 :: 0 :: 0 :: 255 :: binarizeData rest
  | l => l

/-- Pixel is opaque white. -/
def isWhitePx (r g b a : ℕ) : Bool := decide (r = 255 ∧ g = 255 ∧ b = 255 ∧ a = 255)

/-- Pixel is opaque black. -/
def isBlackOpaquePx (r g b a : ℕ) : Bool := decide (r = 0 ∧ g = 0 ∧ b = 0 ∧ a = 255)

/-- Pixel is pure white or pure black, at full alpha. -/
def isBinaryPx (r g b a : ℕ) : Bool := isWhitePx r g b a || isBlackOpaquePx r g b a

/-- Every RGBA pixel (4-byte chunk) of the raster data satisfies `P`; false on
data whose length is not a multiple of 4. -/
def pixelsB (P : ℕ → ℕ → ℕ → ℕ → Bool) : List ℕ → Bool
  | [] => true
  | r :: g :: b :: a :: rest => P r g b a && pixelsB P rest
  | _ => false

/-- Corresponding RGBA pixels of two rasters satisfy the relation `P`; false
when the chunk structures do not match up. -/
def pixels2B (P : ℕ × ℕ × ℕ × ℕ → ℕ × ℕ × ℕ × ℕ → Bool) : List ℕ → List ℕ → Bool
  | [], [] => true
  | r :: g :: b :: a :: xs, r2 :: g2 :: b2 :: a2 :: ys =>
      P (r, g, b, a) (r2, g2, b2, a2) && pixels2B P xs ys
  | _, _ => false

/-- The documented threshold relation between an input pixel and its
binarized output: nonzero alpha goes to opaque white, zero alpha to opaque
black. -/
def thresholdSpec : ℕ × ℕ × ℕ × ℕ → ℕ × ℕ × ℕ × ℕ → Bool :=
  fun p q =>
    if p.2.2.2 > 0 then decide (q = (255, 255, 255, 255)) else decide (q = (0, 0, 0, 255))

/-- A canvas raster: pixel dimensions plus the flat RGBA byte data. -/
structure Raster where
  width : ℕ
  height : ℕ
  data : List ℕ
deriving DecidableEq

/-- Binarize a raster in place (`getImageData` / threshold loop /
`putImageData` in `handleErase`). -/
def binarizeRaster (c : Raster) : Raster :=
  { width := c.width, height := c.height, data := binarizeData c.data }

/-- Embedding of the mask preparation in `handleErase`: a fresh canvas of the
image's natural pixel dimensions is created, the painted mask surface is
drawn onto it scaled up (`ctx.drawImage(maskCanvas, 0, 0, naturalWidth,
naturalHeight)`, an external rasterizer modelled here as the parameter
`drawScaled`), the result is thresholded in place, and that binarized canvas
— not the translucent paint surface — is the mask file handed to
`generateErasedImage`. -/
def eraseMaskSent (drawScaled : Raster → ℕ → ℕ → Raster) (maskCanvas : Raster)
    (naturalWidth naturalHeight : ℕ) : Raster :=
  binarizeRaster (drawScaled maskCanvas naturalWidth naturalHeight)


/-- The expand selection rectangle `{top, left, width, height}` in on-screen
coordinates. -/
structure ExpandRect where
  top : ℚ
  left : ℚ
  width : ℚ
  height : ℚ
deriving DecidableEq

/-- One of the 8 drag handles of the expand frame. -/
inductive Handle where
  | topLeft | top | topRight | left | right | bottomLeft | bottom | bottomRight
deriving DecidableEq

/-- Whether the handle's name contains the substring top
(`handle.includes('top')` in the source). -/
def Handle.hasTop : Handle → Bool
  | .topLeft | .top | .topRight => true
  | _ => false

/-- Whether the handle's name contains the substring bottom. -/
def Handle.hasBottom : Handle → Bool
  | .bottomLeft | .bottom | .bottomRight => true
  | _ => false

/-- Whether the handle's name contains the substring left. -/
def Handle.hasLeft : Handle → Bool
  | .topLeft | .left | .bottomLeft => true
  | _ => false

/-- Whether the handle's name contains the substring right. -/
def Handle.hasRight : Handle → Bool
  | .topRight | .right | .bottomRight => true
  | _ => false

namespace ExpandPanel

/-- The top if-block of `ExpandPanel.handleMouseMove`: move the top edge by
`deltaY`, committed only if the new height stays at least the image height. -/
def dragTop (imageH deltaY : ℚ) (r : ExpandRect) : ExpandRect :=
  if r.height - deltaY ≥ imageH then
    { r with top := r.top + deltaY, height := r.height - deltaY }
  else r

/-- The bottom if-block: grow the height by `deltaY` under the same guard. -/
def dragBottom (imageH deltaY : ℚ) (r : ExpandRect) : ExpandRect :=
  if r.height + deltaY ≥ imageH then { r with height := r.height + deltaY } else r

/-- The left if-block: move the left edge by `deltaX`, committed only if the
new width stays at least the image width. -/
def dragLeft (imageW deltaX : ℚ) (r : ExpandRect) : ExpandRect :=
  if r.width - deltaX ≥ imageW then
    { r with left := r.left + deltaX, width := r.width - deltaX }
  else r

/-- The right if-block: grow the width by `deltaX` under the same guard. -/
def dragRight (imageW deltaX : ℚ) (r : ExpandRect) : ExpandRect :=
  if r.width + deltaX ≥ imageW then { r with width := r.width + deltaX } else r

/-- Embedding of `ExpandPanel.handleMouseMove`: starting from the rect
captured at drag start (`dragState.current.initialRect`), the four if-blocks
run in sequence, each axis clamped independently; corner handles trigger two
of them. -/
def handleMouseMove (imageW imageH : ℚ) (initialRect : ExpandRect) (handle : Handle)
    (deltaX deltaY : ℚ) : ExpandRect :=
  let r1 := if handle.hasTop then dragTop imageH deltaY initialRect else initialRect
  let r2 := if handle.hasBottom then dragBottom imageH deltaY r1 else r1
  let r3 := if handle.hasLeft then dragLeft imageW deltaX r2 else r2
  if handle.hasRight then dragRight imageW deltaX r3 else r3

/-- Embedding of `resetExpandRect`: the rect starts equal to the displayed
image, `{top: 0, left: 0, width: clientWidth, height: clientHeight}`. -/
def resetExpandRect (clientWidth clientHeight : ℚ) : ExpandRect :=
  ⟨0, 0, clientWidth, clientHeight⟩

/-- The states the expand rect passes through during one drag gesture: each
mousemove recomputes from the rect captured at mousedown (`initialRect`) with
the cumulative deltas of that move. -/
def gestureStates (imageW imageH : ℚ) (r : ExpandRect) (handle : Handle)
    (moves : List (ℚ × ℚ)) : List ExpandRect :=
  moves.map (fun d => handleMouseMove imageW imageH r handle d.1 d.2)

/-- The rect at the end of one drag gesture: the last mousemove's result (or
the start rect when the gesture had no moves). -/
def gestureEnd (imageW imageH : ℚ) (r : ExpandRect) (handle : Handle)
    (moves : List (ℚ × ℚ)) : ExpandRect :=
  moves.foldl (fun _ d => handleMouseMove imageW imageH r handle d.1 d.2) r

/-- All states the expand rect passes through over a sequence of drag
gestures (each gesture: mousedown on a handle, a list of cumulative-delta
moves, mouseup). -/
def expandStates (imageW imageH : ℚ) (r : ExpandRect) :
    List (Handle × List (ℚ × ℚ)) → List ExpandRect
  | [] => []
  | g :: gs =>
      gestureStates imageW imageH r g.1 g.2 ++
        expandStates imageW imageH (gestureEnd imageW imageH r g.1 g.2) gs

/-- The expand rect dominates the displayed image size. -/
def rectInv (imageW imageH : ℚ) (r : ExpandRect) : Prop :=
  imageW ≤ r.width ∧ imageH ≤ r.height

/-- Embedding of `isExpanded`: the rect strictly exceeds the displayed image
in width or height. -/
def isExpanded (expandRect : ExpandRect) (imageW imageH : ℚ) : Bool :=
  decide (expandRect.width > imageW) || decide (expandRect.height > imageH)

/-- Generation parameters computed by `handleGenerateClick` (rounded to
integers as `Math.round` does). -/
structure ExpandParams where
  newNaturalWidth : ℤ
  newNaturalHeight : ℤ
  imageNaturalX : ℤ
  imageNaturalY : ℤ
deriving DecidableEq

/-- Embedding of `handleGenerateClick`: scale factors `natural / displayed`
per axis, the new canvas natural size, and the image placement offset
`Math.round(Math.abs(left or top) * scale)`. -/
def handleGenerateClick (naturalW naturalH imageW imageH : ℚ)
    (expandRect : ExpandRect) : ExpandParams :=
  let scaleX := naturalW / imageW
  let scaleY := naturalH / imageH
  { newNaturalWidth := round (expandRect.width * scaleX)
    newNaturalHeight := round (expandRect.height * scaleY)
    imageNaturalX := round (|expandRect.left| * scaleX)
    imageNaturalY := round (|expandRect.top| * scaleY) }

/-- The generate action as reachable from the UI: the button carries
`disabled = isLoading or not isExpanded`, and a disabled button never fires
its click handler, so `handleGenerateClick` (and with it the external expand
call `onApplyExpand` to `generateExpandedImage`) runs only when enabled. -/
def generateAttempt (isLoading : Bool) (naturalW naturalH imageW imageH : ℚ)
    (expandRect : ExpandRect) : Option ExpandParams :=
  if isLoading || !(isExpanded expandRect imageW imageH) then none
  else some (handleGenerateClick naturalW naturalH imageW imageH expandRect)

end ExpandPanel

/-- Embedding of `handleApplyCrop`: the final state of the output canvas and
of the single `drawImage` command issued on it.  The canvas dimensions are
first assigned `completedCrop.width/height` and then overwritten with
`completedCrop.width/height * pixelRatio` before any drawing; the transform
is `setTransform(pixelRatio, 0, 0, pixelRatio, 0, 0)`; the source rectangle
is the crop rect scaled by `natural / displayed`, drawn to destination
`(0, 0, completedCrop.width, completedCrop.height)`. -/
structure CropRender where
  canvasWidth : ℚ
  canvasHeight : ℚ
  transformScale : ℚ
  srcX : ℚ
  srcY : ℚ
  srcW : ℚ
  srcH : ℚ
  dstX : ℚ
  dstY : ℚ
  dstW : ℚ
  dstH : ℚ
deriving DecidableEq

/-- The crop rendering computation of `handleApplyCrop` (identical in both
App variants). -/
def handleApplyCrop (naturalWidth naturalHeight imageWidth imageHeight : ℚ)
    (cropX cropY cropW cropH pixelRatio : ℚ) : CropRender :=
  let scaleX := naturalWidth / imageWidth
  let scaleY := naturalHeight / imageHeight
  { canvasWidth := cropW * pixelRatio
    canvasHeight := cropH * pixelRatio
    transformScale := pixelRatio
    srcX := cropX * scaleX
    srcY := cropY * scaleY
    srcW := cropW * scaleX
    srcH := cropH * scaleY
    dstX := 0
    dstY := 0
    dstW := cropW
    dstH := cropH }


lemma scaleInRange_clamp (x : JSVal) (hx : x ≠ JSVal.nan) :
    scaleInRange (JSVal.min2 (JSVal.max2 (JSVal.fin (1/5)) x) (JSVal.fin 8)) = true := by
  cases x with
  | nan => exact absurd rfl hx
  | posInf =>
    simp only [JSVal.max2, JSVal.min2, scaleInRange, Bool.and_eq_true, decide_eq_true_eq]
    norm_num
  | negInf =>
    simp only [JSVal.max2, JSVal.min2, scaleInRange, Bool.and_eq_true, decide_eq_true_eq]
    exact ⟨le_min le_rfl (by norm_num), min_le_right _ _⟩
  | fin a =>
    simp only [JSVal.max2, JSVal.min2, scaleInRange, Bool.and_eq_true, decide_eq_true_eq]
    exact ⟨le_min (le_max_left _ _) (by norm_num), min_le_right _ _⟩

lemma scaleInRange_fin {v : JSVal} (h : scaleInRange v = true) : ∃ q, v = JSVal.fin q := by
  cases v with
  | fin q => exact ⟨q, rfl⟩
  | nan => simp [scaleInRange] at h
  | posInf => simp [scaleInRange] at h
  | negInf => simp [scaleInRange] at h

lemma pinchMove_good {s : ViewState} (hd : s.initialTouchDistance ≠ 0)
    (hi : scaleInRange s.initialScale = true) (c mx my : ℚ) :
    scaleInRange (pinchMove s c mx my).scale = true ∧
      (pinchMove s c mx my).initialScale = s.initialScale ∧
      (pinchMove s c mx my).initialTouchDistance = s.initialTouchDistance := by
  obtain ⟨q, hq⟩ := scaleInRange_fin hi
  refine ⟨?_, rfl, rfl⟩
  show scaleInRange (JSVal.min2 (JSVal.max2 _ _) _) = true
  apply scaleInRange_clamp
  rw [hq]
  simp only [JSVal.div, if_neg hd, JSVal.mul]
  exact fun h => JSVal.noConfusion h

lemma pinchFold_good {s : ViewState} (hd : s.initialTouchDistance ≠ 0)
    (hs : scaleInRange s.scale = true) (hi : scaleInRange s.initialScale = true)
    (moves : List (ℚ × ℚ × ℚ)) :
    scaleInRange (moves.foldl (fun t m => pinchMove t m.1 m.2.1 m.2.2) s).scale = true ∧
      scaleInRange (moves.foldl (fun t m => pinchMove t m.1 m.2.1 m.2.2) s).initialScale = true := by
  induction moves generalizing s with
  | nil => exact ⟨hs, hi⟩
  | cons m rest ih =>
    obtain ⟨h1, h2, h3⟩ := pinchMove_good hd hi m.1 m.2.1 m.2.2
    exact ih (by rw [h3]; exact hd) h1 (by rw [h2]; exact hi)

lemma viewStep_good {s : ViewState} (h : GoodView s) {e : ViewEv}
    (he : safeViewEv e = true) : GoodView (viewStep s e) := by
  obtain ⟨hs, hi⟩ := h
  cases e with
  | zoom delta cx cy =>
    obtain ⟨q, hq⟩ := scaleInRange_fin hs
    refine ⟨?_, hi⟩
    show scaleInRange (JSVal.min2 (JSVal.max2 _ _) _) = true
    apply scaleInRange_clamp
    rw [hq]
    simp only [JSVal.add]
    exact fun h => JSVal.noConfusion h
  | pan x y => exact ⟨hs, hi⟩
  | reset =>
    refine ⟨?_, hi⟩
    show scaleInRange (JSVal.fin 1) = true
    simp only [scaleInRange, Bool.and_eq_true, decide_eq_true_eq]
    norm_num
  | pinch d moves =>
    simp only [safeViewEv, decide_eq_true_eq] at he
    have := pinchFold_good (s := { s with initialTouchDistance := d, initialScale := s.scale })
      he hs hs moves
    exact ⟨this.1, this.2⟩

lemma viewRun_good {s : ViewState} (h : GoodView s) {evs : List ViewEv}
    (he : ∀ e ∈ evs, safeViewEv e = true) : GoodView (viewRun s evs) := by
  induction evs generalizing s with
  | nil => exact h
  | cons e rest ih =>
    exact ih (viewStep_good h (he e (List.mem_cons_self e rest)))
      (fun x hx => he x (List.mem_cons_of_mem e hx))

/-- C2 (amended).  For every sequence of zoom, pinch, pan and reset operations
in which every two-finger pinch has a nonzero initial touch distance, the
scale afterwards is a finite value with `0.2 ≤ scale ≤ 8`; in particular
repeated `zoom(+10, cx, cy)` never yields a scale above 8 and repeated
`zoom(-10, cx, cy)` never yields a scale below 0.2.  (As stated, the claim is
false: a pinch whose initial and current touch distances are both zero makes
the scale `NaN`, see the counterexample.) -/
theorem claim_C2_view_scale_invariant :
    (∀ evs : List ViewEv, (∀ e ∈ evs, safeViewEv e = true) →
        scaleInRange (viewRun initialViewState evs).scale = true) ∧
      (∀ (n : ℕ) (cx cy : ℚ),
        scaleInRange (viewRun initialViewState (List.replicate n (ViewEv.zoom 10 cx cy))).scale = true ∧
        scaleInRange (viewRun initialViewState (List.replicate n (ViewEv.zoom (-10) cx cy))).scale = true) := by
  have base : GoodView initialViewState := by
    constructor <;>
      · show scaleInRange (JSVal.fin 1) = true
        simp only [scaleInRange, Bool.and_eq_true, decide_eq_true_eq]
        norm_num
  refine ⟨fun evs he => (viewRun_good base he).1, fun n cx cy => ⟨?_, ?_⟩⟩
  · refine (viewRun_good base ?_).1
    intro e he
    rcases List.eq_of_mem_replicate he with rfl
    rfl
  · refine (viewRun_good base ?_).1
    intro e he
    rcases List.eq_of_mem_replicate he with rfl
    rfl

/-- Witness for C2: a concrete safe run (a pinch from distance 2 to distance 4
followed by a large wheel zoom) ends with the scale in range. -/
theorem claim_C2_view_scale_invariant_witness :
    scaleInRange (viewRun initialViewState
      [ViewEv.pinch 2 [(4, 0, 0)], ViewEv.zoom 10 0 0]).scale = true := by
  refine claim_C2_view_scale_invariant.1 _ ?_
  intro e he
  fin_cases he <;> norm_num [safeViewEv]

/-- Counterexample to C2 as stated: a two-finger pinch whose initial touch
distance is zero (both touches at the same point) followed by a move whose
current distance is also zero computes `0 / 0 = NaN`, and the clamp
propagates `NaN` into the scale, violating `0.2 ≤ scale ≤ 8` (JavaScript
comparisons with `NaN` are false). -/
theorem claim_C2_counterexample :
    (viewRun initialViewState [ViewEv.pinch 0 [(0, 0, 0)]]).scale = JSVal.nan ∧
      JSVal.le (JSVal.fin (1/5)) (viewRun initialViewState [ViewEv.pinch 0 [(0, 0, 0)]]).scale = false := by
  have h : (viewRun initialViewState [ViewEv.pinch 0 [(0, 0, 0)]]).scale = JSVal.nan := by
    simp [viewRun, viewStep, pinchMove, initialViewState, JSVal.div, JSVal.mul, JSVal.max2,
      JSVal.min2, JSVal.sub, JSVal.add, JSVal.neg]
  exact ⟨h, by rw [h]; rfl⟩
/-- C1 (confirmed).  Pushing a new version truncates the history to the
prefix `[v0..vi]` and appends the new version, setting the index to the new
last position; concretely, from history `[A,B,C]` at index 1 (encoded as
`[0,1,2]` with `A=0, B=1, C=2, D=3`), pushing `D` yields `[A,B,D]` at index
2, `C` is no longer in the history, and `canRedo` is false at the resulting
state. -/
theorem claim_C1_branch_on_edit :
    (∀ (α : Type) (h : List α) (i : ℕ) (v : α), i < h.length →
        addImageToHistory h (i : ℤ) v = (h.take (i + 1) ++ [v], (i : ℤ) + 1)) ∧
      (addImageToHistory [0, 1, 2] (1 : ℤ) 3 = ([0, 1, 3], 2) ∧
        2 ∉ (addImageToHistory [0, 1, 2] (1 : ℤ) 3).1 ∧
        canRedo (addImageToHistory [0, 1, 2] (1 : ℤ) 3).1
          (addImageToHistory [0, 1, 2] (1 : ℤ) 3).2 = false) := by
  constructor
  · intro α h i v hi
    simp only [addImageToHistory, Prod.mk.injEq]
    have ht : ((i : ℤ) + 1).toNat = i + 1 := by omega
    rw [ht]
    refine ⟨rfl, ?_⟩
    have hlen : (h.take (i + 1)).length = i + 1 := by
      rw [List.length_take]
      omega
    simp [hlen]
  · refine ⟨by decide, by decide, by decide⟩

/-- Witness for C1: the general branch-on-edit law applied to the concrete
history `[0,1,2]` at index 1. -/
theorem claim_C1_branch_on_edit_witness :
    addImageToHistory [0, 1, 2] (1 : ℤ) 3 = ([0, 1, 2].take 2 ++ [3], 2) := by
  simpa using claim_C1_branch_on_edit.1 ℕ [0, 1, 2] 1 3 (by decide)

/-- Counterexample to C6 as stated: in the first App variant (part_000),
`handleUndo` at index 0 still calls `resetZoomAndPan()`, so on a session
state whose scale is 2 the call is not a no-op — the session state changes. -/
theorem claim_C6_counterexample :
    handleUndoV0 (⟨[0], 0, JSVal.fin 2, JSVal.fin 5, JSVal.fin 5⟩ : EditorState ℕ) ≠
      (⟨[0], 0, JSVal.fin 2, JSVal.fin 5, JSVal.fin 5⟩ : EditorState ℕ) := by
  intro h
  have h2 := congrArg EditorState.scale h
  simp only [handleUndoV0, canUndo] at h2
  norm_num at h2

/-- C6 (amended).  Undo when `canUndo` is false and redo when `canRedo` is
false leave the history and the index unchanged in both App variants — in the
part_001 variant they are full no-ops, while the part_000 variant still
resets the view transform (see the counterexample); otherwise undo decrements
and redo increments the index by exactly 1 (and neither ever changes the
version list itself). -/
theorem claim_C6_undo_redo_bounds {α : Type} (s : EditorState α) :
    (canUndo s.historyIndex = false →
        (handleUndoV0 s).history = s.history ∧
          (handleUndoV0 s).historyIndex = s.historyIndex ∧ handleUndoV1 s = s) ∧
      (canUndo s.historyIndex = true →
        (handleUndoV0 s).history = s.history ∧
          (handleUndoV0 s).historyIndex = s.historyIndex - 1 ∧
          (handleUndoV1 s).history = s.history ∧
          (handleUndoV1 s).historyIndex = s.historyIndex - 1) ∧
      (canRedo s.history s.historyIndex = false →
        (handleRedoV0 s).history = s.history ∧
          (handleRedoV0 s).historyIndex = s.historyIndex ∧ handleRedoV1 s = s) ∧
      (canRedo s.history s.historyIndex = true →
        (handleRedoV0 s).history = s.history ∧
          (handleRedoV0 s).historyIndex = s.historyIndex + 1 ∧
          (handleRedoV1 s).history = s.history ∧
          (handleRedoV1 s).historyIndex = s.historyIndex + 1) := by
  refine ⟨fun h => ?_, fun h => ?_, fun h => ?_, fun h => ?_⟩ <;>
    simp [handleUndoV0, handleUndoV1, handleRedoV0, handleRedoV1, h]

/-- Witness for C6: at index 0 the part_001 undo is a full no-op and the
part_000 undo keeps history and index; at index 1 both variants decrement. -/
theorem claim_C6_undo_redo_bounds_witness :
    handleUndoV1 (⟨[0], 0, JSVal.fin 1, JSVal.fin 0, JSVal.fin 0⟩ : EditorState ℕ) =
        (⟨[0], 0, JSVal.fin 1, JSVal.fin 0, JSVal.fin 0⟩ : EditorState ℕ) ∧
      (handleUndoV0 (⟨[0, 1], 1, JSVal.fin 1, JSVal.fin 0, JSVal.fin 0⟩ : EditorState ℕ)).historyIndex = 0 := by
  constructor
  · exact ((claim_C6_undo_redo_bounds
      (⟨[0], 0, JSVal.fin 1, JSVal.fin 0, JSVal.fin 0⟩ : EditorState ℕ)).1 (by decide)).2.2
  · have := ((claim_C6_undo_redo_bounds
      (⟨[0, 1], 1, JSVal.fin 1, JSVal.fin 0, JSVal.fin 0⟩ : EditorState ℕ)).2.1 (by decide)).2.1
    simpa using this

/-- C10 (confirmed).  Every successful undo, redo or reset — i.e. one whose
guard (`canUndo`, `canRedo`, non-empty history) holds — also resets the view
transform to scale 1 and position `{0,0}`, in both App variants. -/
theorem claim_C10_history_nav_resets_view {α : Type} (s : EditorState α) :
    (canUndo s.historyIndex = true →
        viewIsReset (handleUndoV0 s) ∧ viewIsReset (handleUndoV1 s)) ∧
      (canRedo s.history s.historyIndex = true →
        viewIsReset (handleRedoV0 s) ∧ viewIsReset (handleRedoV1 s)) ∧
      (0 < s.history.length → viewIsReset (handleReset s)) := by
  refine ⟨fun h => ?_, fun h => ?_, fun h => ?_⟩ <;>
    simp [handleUndoV0, handleUndoV1, handleRedoV0, handleRedoV1, handleReset,
      viewIsReset, h]

/-- Witness for C10: a concrete zoomed-and-panned state at index 1 of a
two-version history; undo, redo (from index 0) and reset all restore the
reset transform. -/
theorem claim_C10_history_nav_resets_view_witness :
    viewIsReset (handleUndoV0 (⟨[0, 1], 1, JSVal.fin 4, JSVal.fin 7, JSVal.fin 9⟩ : EditorState ℕ)) ∧
      viewIsReset (handleRedoV1 (⟨[0, 1], 0, JSVal.fin 4, JSVal.fin 7, JSVal.fin 9⟩ : EditorState ℕ)) ∧
      viewIsReset (handleReset (⟨[0, 1], 1, JSVal.fin 4, JSVal.fin 7, JSVal.fin 9⟩ : EditorState ℕ)) :=
  ⟨((claim_C10_history_nav_resets_view
      (⟨[0, 1], 1, JSVal.fin 4, JSVal.fin 7, JSVal.fin 9⟩ : EditorState ℕ)).1 (by decide)).1,
    ((claim_C10_history_nav_resets_view
      (⟨[0, 1], 0, JSVal.fin 4, JSVal.fin 7, JSVal.fin 9⟩ : EditorState ℕ)).2.1 (by decide)).2,
    (claim_C10_history_nav_resets_view
      (⟨[0, 1], 1, JSVal.fin 4, JSVal.fin 7, JSVal.fin 9⟩ : EditorState ℕ)).2.2 (by decide)⟩

/-- C3 (confirmed).  Zoom anchoring: for a view state with finite scale in
`[0.2, 8]` and finite offset, after `handleZoom(delta, cx, cy)` (with
`cx = clientX - rect.left`, `cy = clientY - rect.top`) the new scale and
offset are finite, and the image-space point that was under the viewport
point `(cx, cy)` before the zoom maps back to the same viewport point under
the new transform (`viewport = imagePoint * scale + offset`, the inverse of
`getTransformedCoordinates`). -/
theorem claim_C3_zoom_anchoring (s : ViewState)
    (q px py delta clientX clientY rectLeft rectTop : ℚ)
    (hq : s.scale = JSVal.fin q) (hx : s.posX = JSVal.fin px) (hy : s.posY = JSVal.fin py)
    (h1 : 1/5 ≤ q) (h2 : q ≤ 8) :
    ∃ ns nx ny,
      (handleZoom s delta (clientX - rectLeft) (clientY - rectTop)).scale = JSVal.fin ns ∧
        (handleZoom s delta (clientX - rectLeft) (clientY - rectTop)).posX = JSVal.fin nx ∧
        (handleZoom s delta (clientX - rectLeft) (clientY - rectTop)).posY = JSVal.fin ny ∧
        ns * (getTransformedCoordinates clientX clientY rectLeft rectTop px py q).1 + nx =
          clientX - rectLeft ∧
        ns * (getTransformedCoordinates clientX clientY rectLeft rectTop px py q).2 + ny =
          clientY - rectTop := by
  have hq0 : q ≠ 0 := by
    intro h
    rw [h] at h1
    norm_num at h1
  refine ⟨min (max (1/5) (q + delta)) 8,
    (clientX - rectLeft) - ((clientX - rectLeft) - px) * (min (max (1/5) (q + delta)) 8 / q),
    (clientY - rectTop) - ((clientY - rectTop) - py) * (min (max (1/5) (q + delta)) 8 / q),
    ?_, ?_, ?_, ?_, ?_⟩
  · simp [handleZoom, hq, JSVal.add, JSVal.max2, JSVal.min2]
  · simp only [handleZoom, hq, hx, JSVal.add, JSVal.max2, JSVal.min2, JSVal.sub, JSVal.neg,
      JSVal.mul, JSVal.div, if_neg hq0, JSVal.fin.injEq]
    ring
  · simp only [handleZoom, hq, hy, JSVal.add, JSVal.max2, JSVal.min2, JSVal.sub, JSVal.neg,
      JSVal.mul, JSVal.div, if_neg hq0, JSVal.fin.injEq]
    ring
  · simp only [getTransformedCoordinates]
    field_simp
    ring
  · simp only [getTransformedCoordinates]
    field_simp
    ring

/-- Witness for C3: at scale 1, offset `(0,0)`, a `+0.25` zoom centered at
viewport point `(100, 40)`. -/
theorem claim_C3_zoom_anchoring_witness :
    ∃ ns nx ny,
      (handleZoom initialViewState (1/4) (100 - 0) (40 - 0)).scale = JSVal.fin ns ∧
        (handleZoom initialViewState (1/4) (100 - 0) (40 - 0)).posX = JSVal.fin nx ∧
        (handleZoom initialViewState (1/4) (100 - 0) (40 - 0)).posY = JSVal.fin ny ∧
        ns * (getTransformedCoordinates 100 40 0 0 0 0 1).1 + nx = 100 - 0 ∧
        ns * (getTransformedCoordinates 100 40 0 0 0 0 1).2 + ny = 40 - 0 :=
  claim_C3_zoom_anchoring initialViewState 1 0 0 (1/4) 100 40 0 0 rfl rfl rfl
    (by norm_num) (by norm_num)

lemma fourChunkInduction (C : List ℕ → Prop)
    (nil : C [])
    (one : ∀ x, C [x]) (two : ∀ x y, C [x, y]) (three : ∀ x y z, C [x, y, z])
    (cons4 : ∀ r g b a rest, C rest → C (r :: g :: b :: a :: rest)) :
    ∀ l, C l := by
  have main : ∀ n l, List.length l ≤ n → C l := by
    intro n
    induction n with
    | zero =>
      intro l hl
      rw [Nat.le_zero, List.length_eq_zero] at hl
      rw [hl]
      exact nil
    | succ n ih =>
      intro l hl
      rcases l with _ | ⟨r, l⟩
      · exact nil
      rcases l with _ | ⟨g, l⟩
      · exact one r
      rcases l with _ | ⟨b, l⟩
      · exact two r g
      rcases l with _ | ⟨a, l⟩
      · exact three r g b
      refine cons4 r g b a l (ih l ?_)
      simp only [List.length_cons] at hl
      omega
  exact fun l => main l.length l le_rfl

lemma binarizeData_threshold :
    ∀ d : List ℕ, d.length % 4 = 0 → pixels2B thresholdSpec d (binarizeData d) = true := by
  refine fourChunkInduction _ ?_ ?_ ?_ ?_ ?_
  · intro _
    rfl
  · intro x h
    simp at h
  · intro x y h
    simp at h
  · intro x y z h
    simp at h
  · intro r g b a rest ih h
    have hrest : rest.length % 4 = 0 := by
      simp only [List.length_cons] at h
      omega
    rcases Nat.eq_zero_or_pos a with ha | ha
    · subst ha
      simp [binarizeData, pixels2B, thresholdSpec, ih hrest]
    · simp [binarizeData, Nat.pos_iff_ne_zero.mp ha, pixels2B, thresholdSpec, ha, ih hrest]

lemma binarizeData_binary :
    ∀ d : List ℕ, d.length % 4 = 0 → pixelsB isBinaryPx (binarizeData d) = true := by
  refine fourChunkInduction _ ?_ ?_ ?_ ?_ ?_
  · intro _
    rfl
  · intro x h
    simp at h
  · intro x y h
    simp at h
  · intro x y z h
    simp at h
  · intro r g b a rest ih h
    have hrest : rest.length % 4 = 0 := by
      simp only [List.length_cons] at h
      omega
    rcases Nat.eq_zero_or_pos a with ha | ha
    · subst ha
      simp [binarizeData, pixelsB, isBinaryPx, isWhitePx, isBlackOpaquePx, ih hrest]
    · simp [binarizeData, ha, Nat.pos_iff_ne_zero.mp ha, pixelsB, isBinaryPx, isWhitePx,
        isBlackOpaquePx, ih hrest]

/-- Counterexample to C4 as stated: a raster consisting of one pure-black
full-alpha pixel is already binary, yet the thresholding step maps it to
opaque white (its alpha 255 is nonzero), so binarization does not reproduce
it. -/
theorem claim_C4_counterexample :
    isBinaryPx 0 0 0 255 = true ∧
      binarizeData [0, 0, 0, 255] = [255, 255, 255, 255] ∧
      binarizeData [0, 0, 0, 255] ≠ [0, 0, 0, 255] := by
  refine ⟨by decide, by decide, by decide⟩

/-- C4 (amended).  On a raster every pixel of which is pure black or pure
white at full alpha, the binarization step reproduces the raster exactly if
and only if every pixel is opaque white: full-alpha black pixels are mapped
to opaque white, so any binary raster containing a black pixel is changed. -/
theorem claim_C4_binarize_idempotence :
    ∀ m : List ℕ, pixelsB isBinaryPx m = true →
      (binarizeData m = m ↔ pixelsB isWhitePx m = true) := by
  refine fourChunkInduction _ ?_ ?_ ?_ ?_ ?_
  · intro _
    simp [binarizeData, pixelsB]
  · intro x h
    simp [pixelsB] at h
  · intro x y h
    simp [pixelsB] at h
  · intro x y z h
    simp [pixelsB] at h
  · intro r g b a rest ih h
    simp only [pixelsB, Bool.and_eq_true] at h
    obtain ⟨hp, hrest⟩ := h
    have ha : a = 255 := by
      simp only [isBinaryPx, isWhitePx, isBlackOpaquePx, Bool.or_eq_true,
        decide_eq_true_eq] at hp
      rcases hp with ⟨_, _, _, h255⟩ | ⟨_, _, _, h255⟩ <;> exact h255
    subst ha
    rw [show binarizeData (r :: g :: b :: 255 :: rest) =
        255 :: 255 :: 255 :: 255 :: binarizeData rest from by simp [binarizeData]]
    constructor
    · intro he
      simp only [List.cons.injEq] at he
      obtain ⟨hr, hg, hb, -, htail⟩ := he
      simp only [pixelsB, Bool.and_eq_true]
      exact ⟨by simp [isWhitePx, ← hr, ← hg, ← hb], (ih hrest).mp htail⟩
    · intro hw
      simp only [pixelsB, Bool.and_eq_true] at hw
      obtain ⟨hwp, hwrest⟩ := hw
      simp only [isWhitePx, decide_eq_true_eq] at hwp
      obtain ⟨hr, hg, hb, -⟩ := hwp
      subst hr
      subst hg
      subst hb
      rw [(ih hrest).mpr hwrest]

/-- Witness for C4: the all-white two-pixel raster is binary and is
reproduced exactly by binarization. -/
theorem claim_C4_binarize_idempotence_witness :
    binarizeData [255, 255, 255, 255, 255, 255, 255, 255] =
      [255, 255, 255, 255, 255, 255, 255, 255] :=
  (claim_C4_binarize_idempotence [255, 255, 255, 255, 255, 255, 255, 255]
    (by decide)).mpr (by decide)

/-- C9 (confirmed).  For any scaled-to-natural-size mask raster (the result
of drawing the paint surface onto a canvas of the image's natural pixel
dimensions — the external rasterization step `drawScaled`), the mask actually
sent to the external erase call has the natural dimensions, is exactly the
binarized raster (not the paint surface), relates to its input pixelwise by
the alpha threshold (nonzero alpha to opaque white, zero alpha to opaque
black), and contains only opaque-white and opaque-black pixels. -/
theorem claim_C9_binarization_postcondition
    (drawScaled : Raster → ℕ → ℕ → Raster) (maskCanvas : Raster) (nw nh : ℕ)
    (hw : (drawScaled maskCanvas nw nh).width = nw)
    (hh : (drawScaled maskCanvas nw nh).height = nh)
    (hlen : (drawScaled maskCanvas nw nh).data.length % 4 = 0) :
    (eraseMaskSent drawScaled maskCanvas nw nh).width = nw ∧
      (eraseMaskSent drawScaled maskCanvas nw nh).height = nh ∧
      eraseMaskSent drawScaled maskCanvas nw nh =
        binarizeRaster (drawScaled maskCanvas nw nh) ∧
      pixels2B thresholdSpec (drawScaled maskCanvas nw nh).data
        (eraseMaskSent drawScaled maskCanvas nw nh).data = true ∧
      pixelsB isBinaryPx (eraseMaskSent drawScaled maskCanvas nw nh).data = true := by
  refine ⟨hw, hh, rfl, ?_, ?_⟩
  · exact binarizeData_threshold _ hlen
  · exact binarizeData_binary _ hlen

/-- Witness for C9: a concrete 1x1 rasterizer producing a transparent pixel;
the sent mask is the opaque-black binarization of it. -/
theorem claim_C9_binarization_postcondition_witness :
    (eraseMaskSent (fun _ w h => ⟨w, h, List.replicate (4 * w * h) 0⟩)
        ⟨2, 2, [9]⟩ 1 1).data = [0, 0, 0, 255] ∧
      pixels2B thresholdSpec [0, 0, 0, 0]
        (eraseMaskSent (fun _ w h => ⟨w, h, List.replicate (4 * w * h) 0⟩)
          ⟨2, 2, [9]⟩ 1 1).data = true := by
  have h := claim_C9_binarization_postcondition
    (fun _ w h => ⟨w, h, List.replicate (4 * w * h) 0⟩) ⟨2, 2, [9]⟩ 1 1 rfl rfl (by decide)
  exact ⟨by decide, by simpa using h.2.2.2.1⟩
namespace ExpandPanel

lemma rectInv_dragTop {W H : ℚ} {r : ExpandRect} (dy : ℚ) (hr : rectInv W H r) :
    rectInv W H (dragTop H dy r) := by
  unfold dragTop
  split_ifs with hg
  · exact ⟨hr.1, hg⟩
  · exact hr

lemma rectInv_dragBottom {W H : ℚ} {r : ExpandRect} (dy : ℚ) (hr : rectInv W H r) :
    rectInv W H (dragBottom H dy r) := by
  unfold dragBottom
  split_ifs with hg
  · exact ⟨hr.1, hg⟩
  · exact hr

lemma rectInv_dragLeft {W H : ℚ} {r : ExpandRect} (dx : ℚ) (hr : rectInv W H r) :
    rectInv W H (dragLeft W dx r) := by
  unfold dragLeft
  split_ifs with hg
  · exact ⟨hg, hr.2⟩
  · exact hr

lemma rectInv_dragRight {W H : ℚ} {r : ExpandRect} (dx : ℚ) (hr : rectInv W H r) :
    rectInv W H (dragRight W dx r) := by
  unfold dragRight
  split_ifs with hg
  · exact ⟨hg, hr.2⟩
  · exact hr

lemma rectInv_handleMouseMove {W H : ℚ} {r : ExpandRect} (handle : Handle)
    (dx dy : ℚ) (hr : rectInv W H r) : rectInv W H (handleMouseMove W H r handle dx dy) := by
  have t1 : ∀ u : ExpandRect, rectInv W H u →
      rectInv W H (if handle.hasTop then dragTop H dy u else u) := by
    intro u hu
    split_ifs
    · exact rectInv_dragTop dy hu
    · exact hu
  have t2 : ∀ u : ExpandRect, rectInv W H u →
      rectInv W H (if handle.hasBottom then dragBottom H dy u else u) := by
    intro u hu
    split_ifs
    · exact rectInv_dragBottom dy hu
    · exact hu
  have t3 : ∀ u : ExpandRect, rectInv W H u →
      rectInv W H (if handle.hasLeft then dragLeft W dx u else u) := by
    intro u hu
    split_ifs
    · exact rectInv_dragLeft dx hu
    · exact hu
  have t4 : ∀ u : ExpandRect, rectInv W H u →
      rectInv W H (if handle.hasRight then dragRight W dx u else u) := by
    intro u hu
    split_ifs
    · exact rectInv_dragRight dx hu
    · exact hu
  exact t4 _ (t3 _ (t2 _ (t1 _ hr)))

lemma rectInv_gestureEnd {W H : ℚ} {r : ExpandRect} (handle : Handle)
    (moves : List (ℚ × ℚ)) (hr : rectInv W H r) :
    rectInv W H (gestureEnd W H r handle moves) := by
  unfold gestureEnd
  have main : ∀ (ms : List (ℚ × ℚ)) (acc : ExpandRect), rectInv W H acc →
      rectInv W H (ms.foldl (fun _ d => handleMouseMove W H r handle d.1 d.2) acc) := by
    intro ms
    induction ms with
    | nil => exact fun acc h => h
    | cons d ds ih =>
      intro acc _
      exact ih _ (rectInv_handleMouseMove handle d.1 d.2 hr)
  exact main moves r hr

lemma rectInv_expandStates {W H : ℚ} :
    ∀ (gs : List (Handle × List (ℚ × ℚ))) (r : ExpandRect), rectInv W H r →
      ∀ x ∈ expandStates W H r gs, rectInv W H x := by
  intro gs
  induction gs with
  | nil =>
    intro r _ x hx
    simp [expandStates] at hx
  | cons g rest ih =>
    intro r hr x hx
    rw [expandStates, List.mem_append] at hx
    rcases hx with hx | hx
    · rw [gestureStates, List.mem_map] at hx
      obtain ⟨d, -, rfl⟩ := hx
      exact rectInv_handleMouseMove g.1 d.1 d.2 hr
    · exact ih _ (rectInv_gestureEnd g.1 g.2 hr) x hx

end ExpandPanel

/-- C7 (confirmed).  Starting from the expand rect equal to the displayed
image size, after every drag-move event of every gesture sequence on any of
the 8 handles the rect's width is at least the image's displayed width and
its height at least the displayed height. -/
theorem claim_C7_expand_non_shrink (W H : ℚ) (gs : List (Handle × List (ℚ × ℚ))) :
    ∀ x ∈ ExpandPanel.expandStates W H (ExpandPanel.resetExpandRect W H) gs,
      W ≤ x.width ∧ H ≤ x.height := by
  have h0 : ExpandPanel.rectInv W H (ExpandPanel.resetExpandRect W H) :=
    ⟨le_refl W, le_refl H⟩
  exact ExpandPanel.rectInv_expandStates gs _ h0

/-- Witness for C7: a single rightward drag of 5 on a 10x20 image; the
resulting rect still dominates the image size. -/
theorem claim_C7_expand_non_shrink_witness :
    (10 : ℚ) ≤ (ExpandPanel.handleMouseMove 10 20 (ExpandPanel.resetExpandRect 10 20)
        Handle.right 5 0).width ∧
      (20 : ℚ) ≤ (ExpandPanel.handleMouseMove 10 20 (ExpandPanel.resetExpandRect 10 20)
        Handle.right 5 0).height := by
  refine claim_C7_expand_non_shrink 10 20 [(Handle.right, [(5, 0)])] _ ?_
  simp [ExpandPanel.expandStates, ExpandPanel.gestureStates]

/-- C8 (confirmed).  When the expand rect equals the displayed image size,
`isExpanded` is false, so the generate button is disabled and the generate
attempt is rejected locally: `handleGenerateClick` never runs and the
external expand collaborator is never invoked. -/
theorem claim_C8_expand_local_rejection (isLoading : Bool) (nw nh W H : ℚ)
    (r : ExpandRect) (hw : r.width = W) (hh : r.height = H) :
    ExpandPanel.isExpanded r W H = false ∧
      ExpandPanel.generateAttempt isLoading nw nh W H r = none := by
  have hexp : ExpandPanel.isExpanded r W H = false := by
    simp [ExpandPanel.isExpanded, hw, hh]
  refine ⟨hexp, ?_⟩
  simp [ExpandPanel.generateAttempt, hexp]

/-- Witness for C8: an 800x600 image displayed at 400x300 with the expand
rect still equal to the displayed size; the attempt yields no call. -/
theorem claim_C8_expand_local_rejection_witness :
    ExpandPanel.generateAttempt false 800 600 400 300 ⟨0, 0, 400, 300⟩ = none :=
  (claim_C8_expand_local_rejection false 800 600 400 300 ⟨0, 0, 400, 300⟩ rfl rfl).2

/-- Counterexample to C5 as stated: for an 800x600 image displayed at
400x300, a 100x50 crop at device pixel ratio 1 produces a canvas of width
`completedCrop.width * pixelRatio = 100`, not the claimed natural crop width
times the ratio, `100 * (800/400) * 1 = 200`. -/
theorem claim_C5_counterexample :
    (handleApplyCrop 800 600 400 300 0 0 100 50 1).canvasWidth = 100 ∧
      (100 : ℚ) ≠ 100 * (800 / 400) * 1 := by
  constructor
  · norm_num [handleApplyCrop]
  · norm_num

/-- C5 (amended).  The exported crop raster's dimensions are the crop size in
displayed coordinates multiplied by the device pixel ratio; the
natural-resolution crop rect (crop size times `natural / displayed` per axis)
is used only as the source region of the draw.  For a nonzero crop and ratio,
the output width equals the natural crop width times the ratio only in the
case `naturalWidth = displayWidth`. -/
theorem claim_C5_crop_output_dimensions
    (nw nh dw dh cx cy cw ch pr : ℚ) (hdw : dw ≠ 0) (hcw : cw ≠ 0) (hpr : pr ≠ 0) :
    (handleApplyCrop nw nh dw dh cx cy cw ch pr).canvasWidth = cw * pr ∧
      (handleApplyCrop nw nh dw dh cx cy cw ch pr).canvasHeight = ch * pr ∧
      (handleApplyCrop nw nh dw dh cx cy cw ch pr).srcW = cw * (nw / dw) ∧
      (handleApplyCrop nw nh dw dh cx cy cw ch pr).srcH = ch * (nh / dh) ∧
      ((handleApplyCrop nw nh dw dh cx cy cw ch pr).canvasWidth = cw * (nw / dw) * pr ↔
        nw = dw) := by
  refine ⟨rfl, rfl, rfl, rfl, ?_⟩
  constructor
  · intro h
    have h1 : cw * pr = cw * (nw / dw) * pr := h
    have h2 : cw = cw * (nw / dw) := mul_right_cancel₀ hpr h1
    field_simp at h2
    rcases h2 with h2 | h2
    · exact h2.symm
    · exact absurd h2 hcw
  · intro h
    show cw * pr = cw * (nw / dw) * pr
    rw [h, div_self hdw, mul_one]

/-- Witness for C5: concrete 800x600 natural, 400x300 displayed, 100x50 crop
at ratio 2 — the canvas is 200x100 and the claimed natural-width formula
holds only because it is compared at unequal sizes (here it indeed fails, so
the iff yields a negative). -/
theorem claim_C5_crop_output_dimensions_witness :
    (handleApplyCrop 800 600 400 300 0 0 100 50 2).canvasWidth = 100 * 2 ∧
      ¬ (800 : ℚ) = 400 := by
  have h := claim_C5_crop_output_dimensions 800 600 400 300 0 0 100 50 2
    (by norm_num) (by norm_num) (by norm_num)
  refine ⟨h.1, by norm_num⟩
